import Mathlib

/-!
Verification of the crawl/download orchestration engine of the
FurAffinity search downloader (`src/search.py`), shallowly embedded in
Lean 4.  Network responses, HTML extraction results and clock effects
are supplied by an explicit environment trace; filesystem state is a
list of existing paths; machine behaviour (which branch of the Python
code runs, how the counters move, which events are emitted) is
translated branch-for-branch from the source.
-/

namespace FA

/-! ## Filename sanitization (`download_search_results`, lines 282-286)

`re.sub(r'[^A-Za-z0-9._-]', ' ', title)` replaces every character
outside the class with a single space, character by character. -/

/-- The character class `[A-Za-z0-9._-]` of the sanitization regex. -/
def isSafeChar (c : Char) : Bool :=
  (65 ≤ c.toNat && c.toNat ≤ 90) ||     -- A-Z
  (97 ≤ c.toNat && c.toNat ≤ 122) ||    -- a-z
  (48 ≤ c.toNat && c.toNat ≤ 57) ||     -- 0-9
  c == '.' || c == '_' || c == '-'

/-- Model of `re.sub(r'[^A-Za-z0-9._-]', ' ', title)`: every character outside
the safe class becomes one space. -/
def sanitizeTitle (title : String) : String :=
  String.mk (title.data.map fun c => if isSafeChar c then c else ' ')

/-- Model of the f-string of line 284: sanitized title with the
media URL's extension appended. -/
def makeFileName (title ext : String) : String :=
  sanitizeTitle title ++ ext

/-! ## Path helpers (`os.path.basename`, `os.path.splitext`) -/

/-- Characters after the last `/` of a character list. -/
def basenameChars : List Char → List Char
  | [] => []
  | c :: cs => if '/' ∈ cs then basenameChars cs else if c = '/' then cs else c :: cs

/-- Model of `os.path.basename`: the component after the last `/`. -/
def basename (p : String) : String :=
  String.mk (basenameChars p.data)

/-- Split a character list at its LAST dot: `some (root, ext)` where
`ext` starts with that dot; `none` when there is no dot. -/
def splitLastDot : List Char → Option (List Char × List Char)
  | [] => none
  | c :: cs =>
    match splitLastDot cs with
    | some (root, ext) => some (c :: root, ext)
    | none => if c = '.' then some ([], '.' :: cs) else none

/-- Extension part of `os.path.splitext` on a basename: the suffix
from the last dot, provided some character before that dot is not a
dot (leading dots never start an extension). -/
def extOfBasename (b : String) : String :=
  match splitLastDot b.data with
  | some (root, ext) => if root.any (fun c => c != '.') then String.mk ext else ""
  | none => ""

/-- Model of `os.path.splitext(p)[1]` as used on media URLs (line 279). -/
def splitext_ext (p : String) : String :=
  extOfBasename (basename p)

/-! ## Author resolution (`_extract_metadata`, lines 168-174)

The code scans all `/user/<name>/` links in order and takes the first
whose name is not the placeholder `"your username"`; if none
qualifies the artist stays `"unknown_artist"`. -/

/-- The author-resolution loop of `_extract_metadata`. -/
def resolve_artist (candidates : List String) : String :=
  match candidates.find? (fun u => u != "your username") with
  | some u => u
  | none => "unknown_artist"

/-! ## Request primitive (`_make_request`, lines 79-101)

One single request is issued; there is no retry loop anywhere in the
function.  HTTP 401/403 calls `sys.exit(1)`; every other `HTTPError`
and every other exception returns `None` to the caller. -/

/-- What the network does for one request. -/
inductive HttpResponse
  | success (content finalUrl : String)
  | httpError (code : Nat)
  | netError
deriving DecidableEq

/-- Result of `_make_request`: a response object, `None`, or process
exit via `sys.exit(1)`. -/
inductive RequestResult
  | got (content finalUrl : String)
  | failed
  | exitFatal
deriving DecidableEq

/-- Model of `_make_request`: single-shot request, 401/403 fatal, any other
error recoverable (`None`). -/
def make_request (r : HttpResponse) : RequestResult :=
  match r with
  | .success c u => .got c u
  | .httpError code => if code == 403 || code == 401 then .exitFatal else .failed
  | .netError => .failed

/-! ## Downloader (`_download_file`, lines 103-134)

Outcomes are tagged by which return statement runs:
`skippedExists` is the `return False` of line 106 (exists-and-no-
overwrite short circuit, before any network access), `failed` the
`return False` of lines 111 and 134, `saved` the `return True` of line
128, `fatalExit` the `sys.exit(1)` propagating out of `_make_request`
(a `SystemExit` is not an `Exception`, so line 130 does not catch it).
The filesystem is the list of existing paths. -/

/-- What the network/OS does during one download attempt that gets
past the exists-check. -/
inductive DownloadEvent
  | requestFailed
  | requestFatal
  | writeOk (size : Nat)
  | writeFail (bytesWritten : Nat)
deriving DecidableEq

/-- Tag for which return statement of `_download_file` runs. -/
inductive DownloadOutcome
  | saved
  | skippedExists
  | failed
  | fatalExit
deriving DecidableEq

/-- Model of `_download_file(url, file_path)`: returns the outcome and the
filesystem afterwards.  On `writeFail` the `except` block finds the
opened file on disk and `os.remove`s it (lines 132-133), so the path
is gone afterwards — even a pre-existing file at that path, since
`open(file_path, 'wb')` truncated it in place. -/
def download_file (fs : List String) (filePath : String) (overwrite : Bool)
    (ev : DownloadEvent) : DownloadOutcome × List String :=
  if filePath ∈ fs ∧ overwrite = false then (.skippedExists, fs)
  else
    match ev with
    | .requestFailed => (.failed, fs)
    | .requestFatal => (.fatalExit, fs)
    | .writeOk _ => (.saved, filePath :: fs)
    | .writeFail _ => (.failed, fs.filter (fun q => q != filePath))

/-! ## Sidecar metadata (`_add_metadata`, lines 178-186)

The function returns immediately when `self.metadata` is false
(`--plain`); otherwise, when `self.text_meta` is set, it writes
`f"{file_path}.meta"` whose `URL:` line holds `file_path` itself —
the local destination path, not the submission's source URL (the
function is never given any URL). -/

/-- Content written to the `.meta` sidecar (line 186). -/
def sidecar_content (file_path title description : String) : String :=
  "Title: " ++ title ++ "\nURL: " ++ file_path ++ "\nDescription: " ++ description

/-- The sidecar write of `_add_metadata`: `some (path, content)` when a
sidecar file is written, `none` otherwise. -/
def add_metadata_sidecar (metadata textMeta : Bool) (filePath title description : String) :
    Option (String × String) :=
  if metadata = false then none
  else if textMeta then some (filePath ++ ".meta", sidecar_content filePath title description)
  else none

/-- Modelled from the spec: the sidecar content the spec describes,
whose `URL:` line carries the item's SOURCE identifier (refinement
target to compare with `sidecar_content`, which is what the code
writes). -/
def sidecar_content_spec (sourceUrl title description : String) : String :=
  "Title: " ++ title ++ "\nURL: " ++ sourceUrl ++ "\nDescription: " ++ description

/-! ## The crawl loop (`download_search_results`, lines 216-313)

The environment trace supplies, per search page, the outcome of the
page fetch and the per-item data the extractor functions would
produce; per item, the outcome of the item-page fetch, the extracted
media URL / title / author-link candidates, and what the network does
during the download.  The loop itself — branch order, counter
updates, `continue` vs `return` vs falling through to
`time.sleep(0.5)` — is translated statement-for-statement. -/

/-- Configuration derived from the CLI arguments (`__init__`).  The
limits are `int`s defaulting to 0; a non-positive limit never passes
the `> 0` guards, so `Nat` with 0 for "unlimited" is faithful. -/
structure Config where
  outdir : String
  maxFiles : Nat
  maxDuplicates : Nat
  overwrite : Bool
  rename : Bool
  metadata : Bool
  textMeta : Bool
  hasCookieFile : Bool
deriving DecidableEq

/-- The mutable run state: `download_count`, `duplicate_count`,
`page_num` (lines 220-222) and the filesystem. -/
structure RunState where
  downloadCount : Nat
  duplicateCount : Nat
  pageNum : Nat
  fs : List String
deriving DecidableEq

/-- Why the run ended.  `outOfPages` is an artifact of the finite
environment trace: the real loop would block fetching the next page,
so every finite observation of a run is covered. -/
inductive RunResult
  | maxFilesReached
  | maxDuplicatesReached
  | noResultsOnFirstPage
  | noMoreResults
  | noMoreArtworkLinks
  | authFailed
  | completed
  | outOfPages
deriving DecidableEq

/-- Observable events of a run, in order: `sleep` is the
`time.sleep(0.5)` of line 308; `download` a successful save;
`duplicate` the exists-and-no-overwrite skip; `downloadFailed` a
download attempt returning `False`; `skipItem` a `continue` taken at
lines 260, 267 or 272; `authExit` a `sys.exit(1)`. -/
inductive Event
  | sleep
  | download (path : String)
  | duplicate (path : String)
  | downloadFailed (path : String)
  | skipItem
  | authExit
deriving DecidableEq

/-- How one iteration of the per-item `for` loop ends: `skipped` is a
`continue` before the dedup/download stage (no sleep), `proceed`
falls through to `time.sleep(0.5)` and the next item, `stopRun` is a
`return` out of the whole function, `fatal` a `sys.exit(1)`. -/
inductive ItemResult
  | skipped
  | proceed
  | stopRun (r : RunResult)
  | fatal
deriving DecidableEq

/-- Environment data for one item of a search page: the outcome of
fetching its page and what the extractors find there. -/
inductive ItemEnv
  | fetchFailed
  | fetchFatal
  | inaccessible
  | noMediaUrl
  | ok (mediaUrl title description : String) (authorCandidates : List String)
      (dl : DownloadEvent)
deriving DecidableEq

/-- The destination `file_path` computed at lines 276-286 for an item. -/
def itemFilePath (cfg : Config) (mediaUrl title artist : String) : String :=
  let artistDir := cfg.outdir ++ "/" ++ artist
  if cfg.rename then artistDir ++ "/" ++ makeFileName title (splitext_ext mediaUrl)
  else artistDir ++ "/" ++ basename mediaUrl

/-- One iteration of the `for page_path in artwork_pages` body
(lines 254-308), producing the new state, how the iteration ended and
the events it emitted. -/
def processItem (cfg : Config) (st : RunState) (item : ItemEnv) :
    RunState × ItemResult × List Event :=
  match item with
  | .fetchFailed => (st, .skipped, [.skipItem])
  | .fetchFatal => (st, .fatal, [.authExit])
  | .inaccessible => (st, .skipped, [.skipItem])
  | .noMediaUrl => (st, .skipped, [.skipItem])
  | .ok mediaUrl title _description cands dl =>
    let filePath := itemFilePath cfg mediaUrl title (resolve_artist cands)
    if filePath ∈ st.fs ∧ cfg.overwrite = false then
      -- lines 288-293: duplicate skip
      let dup := st.duplicateCount + 1
      if 0 < cfg.maxDuplicates ∧ cfg.maxDuplicates ≤ dup then
        ({ st with duplicateCount := dup }, .stopRun .maxDuplicatesReached,
          [.duplicate filePath])
      else
        ({ st with duplicateCount := dup }, .proceed, [.duplicate filePath, .sleep])
    else
      -- lines 294-306: download attempt
      match download_file st.fs filePath cfg.overwrite dl with
      | (.saved, fs') =>
        let st' := { st with duplicateCount := 0,
                             downloadCount := st.downloadCount + 1, fs := fs' }
        if 0 < cfg.maxFiles ∧ cfg.maxFiles ≤ st'.downloadCount then
          (st', .stopRun .maxFilesReached, [.download filePath])
        else
          (st', .proceed, [.download filePath, .sleep])
      | (.fatalExit, fs') => ({ st with fs := fs' }, .fatal, [.authExit])
      | (.failed, fs') => ({ st with fs := fs' }, .proceed,
          [.downloadFailed filePath, .sleep])
      | (.skippedExists, fs') => ({ st with fs := fs' }, .proceed,
          [.downloadFailed filePath, .sleep])

/-- How the item loop of one page ends. -/
inductive PageStep
  | finished
  | returned (r : RunResult)
  | fatal
deriving DecidableEq

/-- The `for page_path in artwork_pages` loop over one page's items. -/
def processItems (cfg : Config) : RunState → List ItemEnv →
    RunState × PageStep × List Event
  | st, [] => (st, .finished, [])
  | st, item :: rest =>
    match processItem cfg st item with
    | (st', .skipped, evs) =>
      let r := processItems cfg st' rest
      (r.1, r.2.1, evs ++ r.2.2)
    | (st', .proceed, evs) =>
      let r := processItems cfg st' rest
      (r.1, r.2.1, evs ++ r.2.2)
    | (st', .stopRun rr, evs) => (st', .returned rr, evs)
    | (st', .fatal, evs) => (st', .fatal, evs)

/-- Environment data for one search page fetch: `isLoginRedirect`
models `"/login/" in response.url`, `noResults` the
`"No results found"` marker, `items` what `_extract_artwork_urls`
finds together with each item's environment. -/
structure PageData where
  isLoginRedirect : Bool
  noResults : Bool
  items : List ItemEnv
deriving DecidableEq

/-- Environment for one iteration of the `while True` page loop. -/
inductive PageEnv
  | fetchFailed
  | fetchFatal
  | page (d : PageData)
deriving DecidableEq

/-- The `while True` page loop (lines 227-311), consuming one
`PageEnv` per iteration.  A page fetch returning `None` is the
`break` of line 233 (falling through to "complete"); the checks run
in source order: login redirect, "No results found" (page 1 vs
later), empty artwork list, then the item loop. -/
def crawl (cfg : Config) : RunState → List PageEnv → RunState × RunResult × List Event
  | st, [] => (st, .outOfPages, [])
  | st, p :: rest =>
    match p with
    | .fetchFailed => (st, .completed, [])
    | .fetchFatal => (st, .authFailed, [.authExit])
    | .page d =>
      if d.isLoginRedirect && cfg.hasCookieFile then (st, .authFailed, [.authExit])
      else if d.noResults then
        if st.pageNum = 1 then (st, .noResultsOnFirstPage, [])
        else (st, .noMoreResults, [])
      else if d.items.isEmpty then (st, .noMoreArtworkLinks, [])
      else
        match processItems cfg st d.items with
        | (st', .returned rr, evs) => (st', rr, evs)
        | (st', .fatal, evs) => (st', .authFailed, evs)
        | (st', .finished, evs) =>
          let r := crawl cfg { st' with pageNum := st'.pageNum + 1 } rest
          (r.1, r.2.1, evs ++ r.2.2)

/-- Counters and page number as initialized at lines 220-222. -/
def initState (fs : List String) : RunState :=
  ⟨0, 0, 1, fs⟩

/-- Model of `download_search_results`, as a function of the initial filesystem
and the environment trace. -/
def download_search_results (cfg : Config) (fs : List String)
    (pages : List PageEnv) : RunState × RunResult × List Event :=
  crawl cfg (initState fs) pages

/-! ## Helper lemmas -/

/-- Appending on the left does not change a determined last element. -/
lemma getLast?_append_of_some {α : Type} {l₂ : List α} {x : α}
    (l₁ : List α) (h : l₂.getLast? = some x) :
    (l₁ ++ l₂).getLast? = some x := by
  cases l₂ with
  | nil => simp at h
  | cons b bs => rw [List.getLast?_append_cons]; exact h

/-- Per-item bound for the `max_files` policy: entering an item below
the limit, the item leaves the count at most at the limit, stops with
`MaxFilesReached` exactly when the count hits the limit, emits the
saving `download` event as its only event in that case, and stays
strictly below the limit otherwise. -/
lemma processItem_maxFiles (cfg : Config) (st : RunState) (item : ItemEnv)
    (hlt : st.downloadCount < cfg.maxFiles) :
    (processItem cfg st item).1.downloadCount ≤ cfg.maxFiles ∧
    ((processItem cfg st item).2.1 = .stopRun .maxFilesReached ↔
      (processItem cfg st item).1.downloadCount = cfg.maxFiles) ∧
    ((processItem cfg st item).2.1 = .stopRun .maxFilesReached →
      ∃ p, (processItem cfg st item).2.2 = [Event.download p]) ∧
    ((processItem cfg st item).2.1 ≠ .stopRun .maxFilesReached →
      (processItem cfg st item).1.downloadCount < cfg.maxFiles) := by
  cases item with
  | fetchFailed => refine And.intro (by simp [processItem]; omega) (by simp [processItem]; omega)
  | fetchFatal => refine And.intro (by simp [processItem]; omega) (by simp [processItem]; omega)
  | inaccessible => refine And.intro (by simp [processItem]; omega) (by simp [processItem]; omega)
  | noMediaUrl => refine And.intro (by simp [processItem]; omega) (by simp [processItem]; omega)
  | ok mediaUrl title description cands dl =>
    simp only [processItem]
    split
    · split <;> simp <;> omega
    · split
      · rename_i fs' heq
        split
        · rename_i hmax
          simp only
          refine ⟨by omega, ?_, ?_, ?_⟩
          · simp; omega
          · intro _; exact ⟨_, rfl⟩
          · intro hne; exact absurd rfl hne
        · rename_i hmax
          simp only
          refine ⟨by omega, ?_, ?_, ?_⟩
          · simp; omega
          · intro h; simp at h
          · intro _; omega
      · simp; omega
      · simp; omega
      · simp; omega

/-- Page-level bound for the `max_files` policy, by induction over the
item list of one page. -/
lemma processItems_maxFiles (cfg : Config) :
    ∀ (items : List ItemEnv) (st : RunState),
      st.downloadCount < cfg.maxFiles →
      (processItems cfg st items).1.downloadCount ≤ cfg.maxFiles ∧
      ((processItems cfg st items).2.1 = .returned .maxFilesReached ↔
        (processItems cfg st items).1.downloadCount = cfg.maxFiles) ∧
      ((processItems cfg st items).2.1 = .returned .maxFilesReached →
        ∃ p, (processItems cfg st items).2.2.getLast? = some (Event.download p)) ∧
      ((processItems cfg st items).2.1 ≠ .returned .maxFilesReached →
        (processItems cfg st items).1.downloadCount < cfg.maxFiles) := by
  intro items
  induction items with
  | nil =>
    intro st hlt
    refine ⟨by simp [processItems]; omega, by simp [processItems]; omega,
      by simp [processItems], by simp [processItems]; omega⟩
  | cons item rest ih =>
    intro st hlt
    obtain ⟨hle, hiff, hev, hne⟩ := processItem_maxFiles cfg st item hlt
    rcases hp : processItem cfg st item with ⟨st', ir, evs⟩
    rw [hp] at hle hiff hev hne
    simp only at hle hiff hev hne
    cases ir with
    | skipped =>
      have hlt' : st'.downloadCount < cfg.maxFiles := hne (by simp)
      obtain ⟨ihle, ihiff, ihev, ihne⟩ := ih st' hlt'
      refine ⟨?_, ?_, ?_, ?_⟩ <;> simp only [processItems, hp]
      · exact ihle
      · exact ihiff
      · intro h
        obtain ⟨p, hpl⟩ := ihev h
        exact ⟨p, getLast?_append_of_some evs hpl⟩
      · exact ihne
    | proceed =>
      have hlt' : st'.downloadCount < cfg.maxFiles := hne (by simp)
      obtain ⟨ihle, ihiff, ihev, ihne⟩ := ih st' hlt'
      refine ⟨?_, ?_, ?_, ?_⟩ <;> simp only [processItems, hp]
      · exact ihle
      · exact ihiff
      · intro h
        obtain ⟨p, hpl⟩ := ihev h
        exact ⟨p, getLast?_append_of_some evs hpl⟩
      · exact ihne
    | stopRun rr =>
      simp only [ne_eq, ItemResult.stopRun.injEq] at hiff hev hne
      simp only [processItems, hp, ne_eq, PageStep.returned.injEq]
      refine ⟨hle, hiff, ?_, hne⟩
      intro h
      obtain ⟨p, hpl⟩ := hev h
      exact ⟨p, by rw [hpl]; rfl⟩
    | fatal =>
      have hlt' : st'.downloadCount < cfg.maxFiles := hne (by simp)
      simp only [processItems, hp]
      refine ⟨hle, ?_, ?_, fun _ => hlt'⟩
      · constructor
        · intro h; exact absurd h (by simp)
        · intro h; exact absurd h (by omega)
      · intro h; exact absurd h (by simp)

/-- Run-level bound for the `max_files` policy, by induction over the
page trace. -/
lemma crawl_maxFiles (cfg : Config) :
    ∀ (pages : List PageEnv) (st : RunState),
      st.downloadCount < cfg.maxFiles →
      (crawl cfg st pages).1.downloadCount ≤ cfg.maxFiles ∧
      ((crawl cfg st pages).2.1 = .maxFilesReached ↔
        (crawl cfg st pages).1.downloadCount = cfg.maxFiles) ∧
      ((crawl cfg st pages).2.1 = .maxFilesReached →
        ∃ p, (crawl cfg st pages).2.2.getLast? = some (Event.download p)) ∧
      ((crawl cfg st pages).2.1 ≠ .maxFilesReached →
        (crawl cfg st pages).1.downloadCount < cfg.maxFiles) := by
  intro pages
  induction pages with
  | nil =>
    intro st hlt
    exact ⟨by simp [crawl]; omega, by simp [crawl]; omega, by simp [crawl],
      by simp [crawl]; omega⟩
  | cons p rest ih =>
    intro st hlt
    cases p with
    | fetchFailed =>
      exact ⟨by simp [crawl]; omega, by simp [crawl]; omega, by simp [crawl],
        by simp [crawl]; omega⟩
    | fetchFatal =>
      exact ⟨by simp [crawl]; omega, by simp [crawl]; omega, by simp [crawl],
        by simp [crawl]; omega⟩
    | page d =>
      simp only [crawl]
      split
      · exact ⟨by simp; omega, by simp; omega, by simp, by simp; omega⟩
      · split
        · split
          · exact ⟨by simp; omega, by simp; omega, by simp, by simp; omega⟩
          · exact ⟨by simp; omega, by simp; omega, by simp, by simp; omega⟩
        · split
          · exact ⟨by simp; omega, by simp; omega, by simp, by simp; omega⟩
          · obtain ⟨hle, hiff, hev, hne⟩ := processItems_maxFiles cfg d.items st hlt
            rcases hq : processItems cfg st d.items with ⟨st', step, evs⟩
            rw [hq] at hle hiff hev hne
            simp only at hle hiff hev hne
            cases step with
            | finished =>
              have hlt' : st'.downloadCount < cfg.maxFiles := hne (by simp)
              obtain ⟨ihle, ihiff, ihev, ihne⟩ :=
                ih { st' with pageNum := st'.pageNum + 1 } hlt'
              refine ⟨ihle, ihiff, ?_, ihne⟩
              intro h
              obtain ⟨pp, hpl⟩ := ihev h
              exact ⟨pp, getLast?_append_of_some evs hpl⟩
            | returned rr =>
              simp only [ne_eq, PageStep.returned.injEq] at hiff hev hne
              exact ⟨hle, hiff, hev, hne⟩
            | fatal =>
              have hlt' : st'.downloadCount < cfg.maxFiles := hne (by simp)
              dsimp only
              refine ⟨hle, ?_, ?_, fun _ => hlt'⟩
              · constructor
                · intro h; exact absurd h (by simp)
                · intro h; exact absurd h (by omega)
              · intro h; exact absurd h (by simp)

/-- Per-item bound for the `max_duplicates` policy: entering an item
with the consecutive-duplicate count below the limit, the item leaves
it at most at the limit, stops with `MaxDuplicatesReached` exactly
when it hits the limit, emits the `duplicate` event as its only event
in that case, and stays strictly below the limit otherwise. -/
lemma processItem_maxDup (cfg : Config) (st : RunState) (item : ItemEnv)
    (hlt : st.duplicateCount < cfg.maxDuplicates) :
    (processItem cfg st item).1.duplicateCount ≤ cfg.maxDuplicates ∧
    ((processItem cfg st item).2.1 = .stopRun .maxDuplicatesReached ↔
      (processItem cfg st item).1.duplicateCount = cfg.maxDuplicates) ∧
    ((processItem cfg st item).2.1 = .stopRun .maxDuplicatesReached →
      ∃ p, (processItem cfg st item).2.2 = [Event.duplicate p]) ∧
    ((processItem cfg st item).2.1 ≠ .stopRun .maxDuplicatesReached →
      (processItem cfg st item).1.duplicateCount < cfg.maxDuplicates) := by
  cases item with
  | fetchFailed => refine ⟨by simp [processItem]; omega, by simp [processItem]; omega, by simp [processItem],
      fun _ => by simpa [processItem] using hlt⟩
  | fetchFatal => refine ⟨by simp [processItem]; omega, by simp [processItem]; omega, by simp [processItem],
      fun _ => by simpa [processItem] using hlt⟩
  | inaccessible => refine ⟨by simp [processItem]; omega, by simp [processItem]; omega, by simp [processItem],
      fun _ => by simpa [processItem] using hlt⟩
  | noMediaUrl => refine ⟨by simp [processItem]; omega, by simp [processItem]; omega, by simp [processItem],
      fun _ => by simpa [processItem] using hlt⟩
  | ok mediaUrl title description cands dl =>
    simp only [processItem]
    split
    · split
      · rename_i hdup
        dsimp only
        refine ⟨by omega, ?_, ?_, ?_⟩
        · simp; omega
        · intro _; exact ⟨_, rfl⟩
        · intro hne; exact absurd rfl hne
      · rename_i hdup
        dsimp only
        refine ⟨by omega, ?_, ?_, ?_⟩
        · simp; omega
        · intro h; simp at h
        · intro _; omega
    · split
      · split
        · dsimp only
          refine ⟨by omega, ?_, ?_, ?_⟩
          · simp; omega
          · intro h; simp at h
          · intro _; omega
        · dsimp only
          refine ⟨by omega, ?_, ?_, ?_⟩
          · simp; omega
          · intro h; simp at h
          · intro _; omega
      · dsimp only
        exact ⟨by omega, by simp; omega, by intro h; simp at h, fun _ => hlt⟩
      · dsimp only
        exact ⟨by omega, by simp; omega, by intro h; simp at h, fun _ => hlt⟩
      · dsimp only
        exact ⟨by omega, by simp; omega, by intro h; simp at h, fun _ => hlt⟩

/-- Page-level bound for the `max_duplicates` policy. -/
lemma processItems_maxDup (cfg : Config) :
    ∀ (items : List ItemEnv) (st : RunState),
      st.duplicateCount < cfg.maxDuplicates →
      (processItems cfg st items).1.duplicateCount ≤ cfg.maxDuplicates ∧
      ((processItems cfg st items).2.1 = .returned .maxDuplicatesReached ↔
        (processItems cfg st items).1.duplicateCount = cfg.maxDuplicates) ∧
      ((processItems cfg st items).2.1 = .returned .maxDuplicatesReached →
        ∃ p, (processItems cfg st items).2.2.getLast? = some (Event.duplicate p)) ∧
      ((processItems cfg st items).2.1 ≠ .returned .maxDuplicatesReached →
        (processItems cfg st items).1.duplicateCount < cfg.maxDuplicates) := by
  intro items
  induction items with
  | nil =>
    intro st hlt
    refine ⟨by simp [processItems]; omega, by simp [processItems]; omega,
      by simp [processItems], by simp [processItems]; omega⟩
  | cons item rest ih =>
    intro st hlt
    obtain ⟨hle, hiff, hev, hne⟩ := processItem_maxDup cfg st item hlt
    rcases hp : processItem cfg st item with ⟨st', ir, evs⟩
    rw [hp] at hle hiff hev hne
    simp only at hle hiff hev hne
    cases ir with
    | skipped =>
      have hlt' : st'.duplicateCount < cfg.maxDuplicates := hne (by simp)
      obtain ⟨ihle, ihiff, ihev, ihne⟩ := ih st' hlt'
      refine ⟨?_, ?_, ?_, ?_⟩ <;> simp only [processItems, hp]
      · exact ihle
      · exact ihiff
      · intro h
        obtain ⟨p, hpl⟩ := ihev h
        exact ⟨p, getLast?_append_of_some evs hpl⟩
      · exact ihne
    | proceed =>
      have hlt' : st'.duplicateCount < cfg.maxDuplicates := hne (by simp)
      obtain ⟨ihle, ihiff, ihev, ihne⟩ := ih st' hlt'
      refine ⟨?_, ?_, ?_, ?_⟩ <;> simp only [processItems, hp]
      · exact ihle
      · exact ihiff
      · intro h
        obtain ⟨p, hpl⟩ := ihev h
        exact ⟨p, getLast?_append_of_some evs hpl⟩
      · exact ihne
    | stopRun rr =>
      simp only [ne_eq, ItemResult.stopRun.injEq] at hiff hev hne
      simp only [processItems, hp, ne_eq, PageStep.returned.injEq]
      refine ⟨hle, hiff, ?_, hne⟩
      intro h
      obtain ⟨p, hpl⟩ := hev h
      exact ⟨p, by rw [hpl]; rfl⟩
    | fatal =>
      have hlt' : st'.duplicateCount < cfg.maxDuplicates := hne (by simp)
      simp only [processItems, hp]
      refine ⟨hle, ?_, ?_, fun _ => hlt'⟩
      · constructor
        · intro h; exact absurd h (by simp)
        · intro h; exact absurd h (by omega)
      · intro h; exact absurd h (by simp)

/-- Run-level bound for the `max_duplicates` policy. -/
lemma crawl_maxDup (cfg : Config) :
    ∀ (pages : List PageEnv) (st : RunState),
      st.duplicateCount < cfg.maxDuplicates →
      (crawl cfg st pages).1.duplicateCount ≤ cfg.maxDuplicates ∧
      ((crawl cfg st pages).2.1 = .maxDuplicatesReached ↔
        (crawl cfg st pages).1.duplicateCount = cfg.maxDuplicates) ∧
      ((crawl cfg st pages).2.1 = .maxDuplicatesReached →
        ∃ p, (crawl cfg st pages).2.2.getLast? = some (Event.duplicate p)) ∧
      ((crawl cfg st pages).2.1 ≠ .maxDuplicatesReached →
        (crawl cfg st pages).1.duplicateCount < cfg.maxDuplicates) := by
  intro pages
  induction pages with
  | nil =>
    intro st hlt
    exact ⟨by simp [crawl]; omega, by simp [crawl]; omega, by simp [crawl],
      by simp [crawl]; omega⟩
  | cons p rest ih =>
    intro st hlt
    cases p with
    | fetchFailed =>
      exact ⟨by simp [crawl]; omega, by simp [crawl]; omega, by simp [crawl],
        by simp [crawl]; omega⟩
    | fetchFatal =>
      exact ⟨by simp [crawl]; omega, by simp [crawl]; omega, by simp [crawl],
        by simp [crawl]; omega⟩
    | page d =>
      simp only [crawl]
      split
      · exact ⟨by simp; omega, by simp; omega, by simp, by simp; omega⟩
      · split
        · split
          · exact ⟨by simp; omega, by simp; omega, by simp, by simp; omega⟩
          · exact ⟨by simp; omega, by simp; omega, by simp, by simp; omega⟩
        · split
          · exact ⟨by simp; omega, by simp; omega, by simp, by simp; omega⟩
          · obtain ⟨hle, hiff, hev, hne⟩ := processItems_maxDup cfg d.items st hlt
            rcases hq : processItems cfg st d.items with ⟨st', step, evs⟩
            rw [hq] at hle hiff hev hne
            simp only at hle hiff hev hne
            cases step with
            | finished =>
              have hlt' : st'.duplicateCount < cfg.maxDuplicates := hne (by simp)
              obtain ⟨ihle, ihiff, ihev, ihne⟩ :=
                ih { st' with pageNum := st'.pageNum + 1 } hlt'
              refine ⟨ihle, ihiff, ?_, ihne⟩
              intro h
              obtain ⟨pp, hpl⟩ := ihev h
              exact ⟨pp, getLast?_append_of_some evs hpl⟩
            | returned rr =>
              simp only [ne_eq, PageStep.returned.injEq] at hiff hev hne
              exact ⟨hle, hiff, hev, hne⟩
            | fatal =>
              have hlt' : st'.duplicateCount < cfg.maxDuplicates := hne (by simp)
              dsimp only
              refine ⟨hle, ?_, ?_, fun _ => hlt'⟩
              · constructor
                · intro h; exact absurd h (by simp)
                · intro h; exact absurd h (by omega)
              · intro h; exact absurd h (by simp)

/-- The counter `download_count` never decreases across one item. -/
lemma processItem_mono (cfg : Config) (st : RunState) (item : ItemEnv) :
    st.downloadCount ≤ (processItem cfg st item).1.downloadCount := by
  cases item with
  | fetchFailed => simp [processItem]
  | fetchFatal => simp [processItem]
  | inaccessible => simp [processItem]
  | noMediaUrl => simp [processItem]
  | ok mediaUrl title description cands dl =>
    simp only [processItem]
    split
    · split <;> (dsimp only; omega)
    · split <;> (first
        | (split <;> (dsimp only; omega))
        | (dsimp only; omega))

/-- The counter `download_count` never decreases across one page's items. -/
lemma processItems_mono (cfg : Config) :
    ∀ (items : List ItemEnv) (st : RunState),
      st.downloadCount ≤ (processItems cfg st items).1.downloadCount := by
  intro items
  induction items with
  | nil => intro st; simp [processItems]
  | cons item rest ih =>
    intro st
    have h1 := processItem_mono cfg st item
    rcases hp : processItem cfg st item with ⟨st', ir, evs⟩
    rw [hp] at h1
    simp only at h1
    cases ir <;> simp only [processItems, hp] <;>
      first
        | exact le_trans h1 (ih st')
        | exact h1

/-- The counter `download_count` never decreases across the whole run. -/
lemma crawl_mono (cfg : Config) :
    ∀ (pages : List PageEnv) (st : RunState),
      st.downloadCount ≤ (crawl cfg st pages).1.downloadCount := by
  intro pages
  induction pages with
  | nil => intro st; simp [crawl]
  | cons p rest ih =>
    intro st
    cases p with
    | fetchFailed => simp [crawl]
    | fetchFatal => simp [crawl]
    | page d =>
      simp only [crawl]
      split
      · simp
      · split
        · split <;> simp
        · split
          · simp
          · have h1 := processItems_mono cfg d.items st
            rcases hq : processItems cfg st d.items with ⟨st', step, evs⟩
            rw [hq] at h1
            simp only at h1
            cases step with
            | finished =>
              exact le_trans h1 (ih { st' with pageNum := st'.pageNum + 1 })
            | returned rr => exact h1
            | fatal => exact h1

/-- Per-item counter discipline: what each possible branch of the item
body does to the two counters, observed through the emitted events. -/
lemma processItem_counters (cfg : Config) (st : RunState) (item : ItemEnv) :
    ((∃ p, Event.download p ∈ (processItem cfg st item).2.2) →
      (processItem cfg st item).1.duplicateCount = 0 ∧
      (processItem cfg st item).1.downloadCount = st.downloadCount + 1) ∧
    ((∃ p, Event.duplicate p ∈ (processItem cfg st item).2.2) ↔
      (processItem cfg st item).1.duplicateCount = st.duplicateCount + 1) ∧
    ((¬ ∃ p, Event.download p ∈ (processItem cfg st item).2.2) →
      (processItem cfg st item).1.downloadCount = st.downloadCount) := by
  cases item with
  | fetchFailed => refine ⟨by simp [processItem], by simp [processItem],
      by simp [processItem]⟩
  | fetchFatal => refine ⟨by simp [processItem], by simp [processItem],
      by simp [processItem]⟩
  | inaccessible => refine ⟨by simp [processItem], by simp [processItem],
      by simp [processItem]⟩
  | noMediaUrl => refine ⟨by simp [processItem], by simp [processItem],
      by simp [processItem]⟩
  | ok mediaUrl title description cands dl =>
    simp only [processItem]
    split
    · split
      · dsimp only
        refine ⟨by simp, by simp, by simp⟩
      · dsimp only
        refine ⟨by simp, by simp, by simp⟩
    · split
      · split
        · dsimp only
          refine ⟨by simp, by simp, by simp⟩
        · dsimp only
          refine ⟨by simp, by simp, by simp⟩
      · dsimp only
        refine ⟨by simp, by simp, by simp⟩
      · dsimp only
        refine ⟨by simp, by simp, by simp⟩
      · dsimp only
        refine ⟨by simp, by simp, by simp⟩

/-! ## Sample environments used by witnesses and counterexamples -/

/-- A media URL as found on submission pages. -/
def sampleMediaUrl : String :=
  "https://d.furaffinity.net/art/realArtist/pic.png"

/-- An item whose page fetch, extraction and download all succeed. -/
def sampleItem : ItemEnv :=
  .ok sampleMediaUrl "T" "D" ["realArtist"] (.writeOk 10)

/-- Config: `max_files = 1`, renaming and metadata on. -/
def cfgMaxFiles : Config :=
  ⟨"out", 1, 0, false, true, true, true, false⟩

/-- Config: `max_duplicates = 1`. -/
def cfgMaxDup : Config :=
  ⟨"out", 0, 1, false, true, true, true, false⟩

/-- The destination path `cfgMaxFiles` computes for `sampleItem`. -/
def samplePath : String := "out/realArtist/T.png"

/-- One search page carrying two successful items. -/
def pagesTwo : List PageEnv :=
  [.page ⟨false, false, [sampleItem, sampleItem]⟩]

/-- One search page whose only item fails to fetch. -/
def pagesSkip : List PageEnv :=
  [.page ⟨false, false, [ItemEnv.fetchFailed]⟩]

/-! ## Claims -/

/-- C1: RunCounters invariant — in every run of the crawl loop,
`consecutiveDuplicates` is reset to 0 on every successful new download
and is incremented (by one) exactly on an already-exists skip, and
`downloadsSoFar` only increases: it grows by one on a successful
download, is unchanged otherwise, and is monotone along the whole
run. -/
theorem spec_C1 :
    (∀ (cfg : Config) (st : RunState) (item : ItemEnv),
      st.downloadCount ≤ (processItem cfg st item).1.downloadCount ∧
      ((∃ p, Event.download p ∈ (processItem cfg st item).2.2) →
        (processItem cfg st item).1.duplicateCount = 0 ∧
        (processItem cfg st item).1.downloadCount = st.downloadCount + 1) ∧
      ((∃ p, Event.duplicate p ∈ (processItem cfg st item).2.2) ↔
        (processItem cfg st item).1.duplicateCount = st.duplicateCount + 1) ∧
      ((¬ ∃ p, Event.download p ∈ (processItem cfg st item).2.2) →
        (processItem cfg st item).1.downloadCount = st.downloadCount)) ∧
    (∀ (cfg : Config) (st : RunState) (pages : List PageEnv),
      st.downloadCount ≤ (crawl cfg st pages).1.downloadCount) :=
  ⟨fun cfg st item =>
    ⟨processItem_mono cfg st item, processItem_counters cfg st item⟩,
   fun cfg st pages => crawl_mono cfg pages st⟩

/-- Witness for C1 at a concrete input: a successful download resets
the duplicate counter and bumps the download counter. -/
theorem spec_C1_witness :
    (processItem cfgMaxFiles (initState []) sampleItem).1.duplicateCount = 0 ∧
    (processItem cfgMaxFiles (initState []) sampleItem).1.downloadCount =
      (initState []).downloadCount + 1 :=
  (spec_C1.1 cfgMaxFiles (initState []) sampleItem).2.1
    ⟨samplePath, by decide⟩

/-- C2: with `maxFiles > 0`, `downloadsSoFar` never exceeds
`maxFiles`; the run reports `MaxFilesReached` exactly when the count
hit the limit, and in that case the saving `download` event is the
last event of the whole run — no later item is processed. -/
theorem spec_C2 (cfg : Config) (fs : List String) (pages : List PageEnv)
    (hmax : 0 < cfg.maxFiles) :
    (download_search_results cfg fs pages).1.downloadCount ≤ cfg.maxFiles ∧
    ((download_search_results cfg fs pages).2.1 = .maxFilesReached ↔
      (download_search_results cfg fs pages).1.downloadCount = cfg.maxFiles) ∧
    ((download_search_results cfg fs pages).2.1 = .maxFilesReached →
      ∃ p, (download_search_results cfg fs pages).2.2.getLast? =
        some (Event.download p)) := by
  have h := crawl_maxFiles cfg pages (initState fs) (by simpa [initState] using hmax)
  exact ⟨h.1, h.2.1, h.2.2.1⟩

/-- Witness for C2: a run with `max_files = 1` over a page with two
good items downloads exactly one file, stops with `MaxFilesReached`,
and its trace ends at the saving download. -/
theorem spec_C2_witness :
    0 < cfgMaxFiles.maxFiles ∧
    (download_search_results cfgMaxFiles [] pagesTwo).1.downloadCount ≤
      cfgMaxFiles.maxFiles :=
  ⟨by decide, (spec_C2 cfgMaxFiles [] pagesTwo (by decide)).1⟩

/-- C3: with `maxDuplicates > 0`, `consecutiveDuplicates` never
exceeds `maxDuplicates`; the run reports `MaxDuplicatesReached`
exactly when the count hit the limit, and in that case the
triggering `duplicate` event is the last event of the whole run — no
later item is processed. -/
theorem spec_C3 (cfg : Config) (fs : List String) (pages : List PageEnv)
    (hmax : 0 < cfg.maxDuplicates) :
    (download_search_results cfg fs pages).1.duplicateCount ≤ cfg.maxDuplicates ∧
    ((download_search_results cfg fs pages).2.1 = .maxDuplicatesReached ↔
      (download_search_results cfg fs pages).1.duplicateCount = cfg.maxDuplicates) ∧
    ((download_search_results cfg fs pages).2.1 = .maxDuplicatesReached →
      ∃ p, (download_search_results cfg fs pages).2.2.getLast? =
        some (Event.duplicate p)) := by
  have h := crawl_maxDup cfg pages (initState fs) (by simpa [initState] using hmax)
  exact ⟨h.1, h.2.1, h.2.2.1⟩

/-- Witness for C3: with `max_duplicates = 1` and the target file
already on disk, the first duplicate stops the run. -/
theorem spec_C3_witness :
    0 < cfgMaxDup.maxDuplicates ∧
    (download_search_results cfgMaxDup [samplePath] pagesTwo).1.duplicateCount ≤
      cfgMaxDup.maxDuplicates :=
  ⟨by decide, (spec_C3 cfgMaxDup [samplePath] pagesTwo (by decide)).1⟩

/-- C4: fetch failure semantics of the request primitive — an HTTP
401 or 403 terminates the run (`sys.exit`), every other HTTP error
returns the failure value `None` to the caller, as does any network
error; a successful response is passed through.  The function issues
exactly one request: no retry exists in the model or the code. -/
theorem spec_C4 (code : Nat) :
    (make_request (.httpError code) = .exitFatal ↔ (code = 401 ∨ code = 403)) ∧
    make_request .netError = .failed ∧
    (∀ c u, make_request (.success c u) = .got c u) ∧
    (make_request (.httpError code) ≠ .exitFatal →
      make_request (.httpError code) = .failed) := by
  refine ⟨?_, rfl, fun c u => rfl, ?_⟩
  · simp only [make_request]
    split
    · rename_i h
      simp only [Bool.or_eq_true, beq_iff_eq] at h
      exact ⟨fun _ => h.symm, fun _ => rfl⟩
    · rename_i h
      simp only [Bool.or_eq_true, beq_iff_eq] at h
      constructor
      · intro hf; exact absurd hf (by simp)
      · intro hor; exact absurd hor.symm h
  · simp only [make_request]
    split
    · intro hne; exact absurd rfl hne
    · intro _; rfl

/-- Witness for C4: 403 is fatal, 500 returns the failure value. -/
theorem spec_C4_witness :
    make_request (.httpError 403) = .exitFatal ∧
    make_request (.httpError 500) = .failed :=
  ⟨(spec_C4 403).1.mpr (Or.inr rfl), (spec_C4 500).2.2.2 (by decide)⟩

/-- C5: partial-write safety — a download that fails mid-write after
N > 0 bytes leaves no file at the destination and reports the
`Failed` outcome; the crawl loop treats that item as recoverable and
proceeds to the next item (and the destination is also absent from
the run state afterwards). -/
theorem spec_C5 :
    (∀ (fs : List String) (path : String) (ow : Bool) (n : Nat),
      0 < n → ¬(path ∈ fs ∧ ow = false) →
      (download_file fs path ow (.writeFail n)).1 = .failed ∧
      path ∉ (download_file fs path ow (.writeFail n)).2) ∧
    (∀ (cfg : Config) (st : RunState) (u t d : String) (cs : List String) (n : Nat),
      ¬(itemFilePath cfg u t (resolve_artist cs) ∈ st.fs ∧ cfg.overwrite = false) →
      (processItem cfg st (.ok u t d cs (.writeFail n))).2.1 = .proceed ∧
      itemFilePath cfg u t (resolve_artist cs) ∉
        (processItem cfg st (.ok u t d cs (.writeFail n))).1.fs) := by
  constructor
  · intro fs path ow n _ hg
    unfold download_file
    rw [if_neg hg]
    exact ⟨rfl, by simp [List.mem_filter]⟩
  · intro cfg st u t d cs n hg
    dsimp only [processItem]
    rw [if_neg hg]
    unfold download_file
    rw [if_neg hg]
    exact ⟨rfl, by simp [List.mem_filter]⟩

/-- Witness for C5: a mid-write failure after 5 bytes on a fresh path
reports `Failed` and leaves the path absent. -/
theorem spec_C5_witness :
    (download_file ["old"] "out/a.png" false (.writeFail 5)).1 = .failed ∧
    "out/a.png" ∉ (download_file ["old"] "out/a.png" false (.writeFail 5)).2 :=
  spec_C5.1 ["old"] "out/a.png" false 5 (by decide) (by decide)

/-- C6: filename sanitization — the sanitized title has the same
length as the title, consists only of safe characters and spaces,
arises by replacing each unsafe character with a single space, gets
the media extension appended unchanged, and on the spec's example
`"Foo/Bar: v2!"` with `.png` yields `"Foo Bar  v2 .png"`. -/
theorem spec_C6 :
    (∀ title : String, (sanitizeTitle title).length = title.length) ∧
    (∀ title : String,
      (sanitizeTitle title).data =
        title.data.map (fun c => if isSafeChar c then c else ' ')) ∧
    (∀ title : String,
      (sanitizeTitle title).data.all (fun c => isSafeChar c || c == ' ') = true) ∧
    (∀ title ext : String, makeFileName title ext = sanitizeTitle title ++ ext) ∧
    makeFileName "Foo/Bar: v2!" ".png" = "Foo Bar  v2 .png" := by
  refine ⟨?_, fun _ => rfl, ?_, fun _ _ => rfl, by decide⟩
  · intro title
    show (sanitizeTitle title).data.length = title.data.length
    simp [sanitizeTitle]
  · intro title
    simp only [sanitizeTitle, List.all_eq_true]
    intro c hc
    simp only [List.mem_map] at hc
    obtain ⟨a, -, rfl⟩ := hc
    by_cases h : isSafeChar a
    · simp [h]
    · simp [h]

/-- C7: author resolution — the resolved author is the first
author-link candidate in document order that is not the placeholder
`"your username"`; if every candidate is the placeholder (or there is
none), the literal fallback `"unknown_artist"` is returned; on the
spec's example `["your username", "realArtist"]` the result is
`"realArtist"`. -/
theorem spec_C7 :
    resolve_artist ["your username", "realArtist"] = "realArtist" ∧
    (∀ (pre : List String) (u : String) (post : List String),
      (∀ c ∈ pre, c = "your username") → u ≠ "your username" →
      resolve_artist (pre ++ u :: post) = u) ∧
    (∀ cs : List String, (∀ c ∈ cs, c = "your username") →
      resolve_artist cs = "unknown_artist") := by
  refine ⟨by decide, ?_, ?_⟩
  · intro pre u post hpre hu
    induction pre with
    | nil =>
      unfold resolve_artist
      rw [List.nil_append, List.find?_cons_of_pos _ (by simp [hu])]
    | cons x pre' ih =>
      have hx : x = "your username" := hpre x (by simp)
      subst hx
      have := ih (fun c hc => hpre c (by simp [hc]))
      unfold resolve_artist at this ⊢
      rw [List.cons_append, List.find?_cons_of_neg _ (by simp)]
      exact this
  · intro cs hcs
    induction cs with
    | nil => rfl
    | cons x cs' ih =>
      have hx : x = "your username" := hcs x (by simp)
      subst hx
      have := ih (fun c hc => hcs c (by simp [hc]))
      unfold resolve_artist at this ⊢
      rw [List.find?_cons_of_neg _ (by simp)]
      exact this

/-- Witness for C7: placeholders before the real author are skipped. -/
theorem spec_C7_witness :
    resolve_artist ["your username", "alice", "bob"] = "alice" :=
  spec_C7.2.1 ["your username"] "alice" ["bob"]
    (by intro c hc; simpa using hc) (by decide)

/-- C8 (amended): the `time.sleep(0.5)` pacing delay runs exactly
after the items that reach the duplicate-check/download stage without
terminating the run (it is then the last event of the iteration);
items skipped by `continue` — fetch failure, inaccessible page,
missing media URL — proceed to the next item with no delay. -/
theorem spec_C8 (cfg : Config) (st : RunState) (item : ItemEnv) :
    (Event.sleep ∈ (processItem cfg st item).2.2 ↔
      (processItem cfg st item).2.1 = .proceed) ∧
    ((processItem cfg st item).2.1 = .proceed →
      (processItem cfg st item).2.2.getLast? = some Event.sleep) ∧
    ((item = .fetchFailed ∨ item = .inaccessible ∨ item = .noMediaUrl) →
      (processItem cfg st item).2.1 = .skipped ∧
      Event.sleep ∉ (processItem cfg st item).2.2) := by
  cases item with
  | fetchFailed =>
    exact ⟨by simp [processItem], by simp [processItem], fun _ => by simp [processItem]⟩
  | fetchFatal =>
    exact ⟨by simp [processItem], by simp [processItem], fun h => by simp at h⟩
  | inaccessible =>
    exact ⟨by simp [processItem], by simp [processItem], fun _ => by simp [processItem]⟩
  | noMediaUrl =>
    exact ⟨by simp [processItem], by simp [processItem], fun _ => by simp [processItem]⟩
  | ok mediaUrl title description cands dl =>
    refine ⟨?_, ?_, fun h => by simp at h⟩ <;>
      (simp only [processItem]
       split
       · split
         · dsimp only; simp
         · dsimp only; simp
       · split
         · split
           · dsimp only; simp
           · dsimp only; simp
         · dsimp only; simp
         · dsimp only; simp
         · dsimp only; simp)

/-- Counterexample to C8 as stated: a run whose single item fails to
fetch emits no `sleep` event at all — the `continue` at line 260
jumps over `time.sleep(0.5)`. -/
theorem spec_C8_counterexample :
    (download_search_results cfgMaxFiles [] pagesSkip).2.2 = [Event.skipItem] ∧
    Event.sleep ∉ (download_search_results cfgMaxFiles [] pagesSkip).2.2 := by
  exact ⟨by decide, by decide⟩

/-- Witness for C8: at a concrete fetch-failed item the loop skips
with no sleep. -/
theorem spec_C8_witness :
    (processItem cfgMaxFiles (initState []) .fetchFailed).2.1 = .skipped ∧
    Event.sleep ∉ (processItem cfgMaxFiles (initState []) .fetchFailed).2.2 :=
  (spec_C8 cfgMaxFiles (initState []) .fetchFailed).2.2 (Or.inl rfl)

/-- C9 (amended): when separate-metadata mode is requested AND
metadata injection is not disabled, a sidecar `<filePath>.meta` is
written whose `Title:` line holds the title, whose `URL:` line holds
the DESTINATION FILE PATH (not the item's source identifier), and
whose `Description:` line holds the description; with metadata
injection disabled (`--plain`) no sidecar is written even when
separate-metadata mode is requested. -/
theorem spec_C9 (p t d : String) :
    add_metadata_sidecar true true p t d =
      some (p ++ ".meta",
        "Title: " ++ t ++ "\nURL: " ++ p ++ "\nDescription: " ++ d) ∧
    (∀ tm : Bool, add_metadata_sidecar false tm p t d = none) ∧
    add_metadata_sidecar true false p t d = none :=
  ⟨rfl, fun _ => rfl, rfl⟩

/-- Counterexample to C9 as stated: for a concrete downloaded file the
sidecar's `URL:` line carries the local destination path, which
differs from the sidecar the spec describes (whose `URL:` line is the
item's source identifier); and in plain mode no sidecar is written at
all despite separate-metadata mode being requested. -/
theorem spec_C9_counterexample :
    add_metadata_sidecar true true "out/realArtist/pic.png" "T" "D" =
      some ("out/realArtist/pic.png.meta",
        "Title: T\nURL: out/realArtist/pic.png\nDescription: D") ∧
    sidecar_content "out/realArtist/pic.png" "T" "D" ≠
      sidecar_content_spec "https://www.furaffinity.net/view/123/" "T" "D" ∧
    add_metadata_sidecar false true "out/realArtist/pic.png" "T" "D" = none := by
  exact ⟨by decide, by decide, by decide⟩

/-- C10 (implicit): when a download fails after the destination was
opened for writing, the destination path is absent afterwards even if
a complete file existed there before the call (overwrite enabled):
the pre-existing file is truncated by `open(..., 'wb')` and then
removed by the error handler, not preserved or restored. -/
theorem spec_C10 (fs : List String) (path : String) (n : Nat)
    (_hmem : path ∈ fs) :
    (download_file fs path true (.writeFail n)).1 = .failed ∧
    path ∉ (download_file fs path true (.writeFail n)).2 := by
  unfold download_file
  rw [if_neg (by simp)]
  exact ⟨rfl, by simp [List.mem_filter]⟩

/-- Witness for C10: a pre-existing file at the destination is gone
after a failed overwriting download. -/
theorem spec_C10_witness :
    "out/a.png" ∈ ["out/a.png"] ∧
    "out/a.png" ∉ (download_file ["out/a.png"] "out/a.png" true (.writeFail 0)).2 :=
  ⟨by decide, (spec_C10 ["out/a.png"] "out/a.png" 0 (by decide)).2⟩

end FA
